import Mathlib

/-!
Verification of the Taiwan ETF holdings pipeline (`projects/taiwan_etf_holdings/scraper.py`)
against its natural-language specification.

The embedding is shallow:
* A fetched page is abstracted as the table structure BeautifulSoup extracts from it:
  a document is a list of tables, a table a list of rows, a row the list of its cells'
  stripped text contents (`get_text(strip=True)`).
* Python `float` values that the pipeline manipulates are modelled as exact rationals;
  the numeric conversion `float(...)` on weight strings is modelled by `pyFloat`,
  which parses an optional sign, decimal digits with an optional fractional part and
  an optional exponent, exactly the shapes the scraper's weight cells take.
* Dates are abstracted as naturals; `date.today()` becomes an explicit `today` parameter.
* Network effects are oracles: a fetcher is a function from URL to `Option String`
  (`none` models every absorbed transport failure), and the Zyte / direct HTTP clients
  are functions of a response oracle.
* The PostgreSQL connection is modelled by an explicit transaction state: `execute`
  appends to an uncommitted pending list (and may fail, per an oracle indexed by
  statement sequence number), `commit` flushes pending rows into the stored table,
  and closing without committing discards pending work.
-/

namespace TaiwanETF

/-- The stripped text content of one table cell. -/
abbrev Cell := String

/-- One `<tr>` row: the texts of its `td`/`th` cells in order. -/
abbrev TableRow := List Cell

/-- One `<table>`: its rows in document order. -/
abbrev HTMLTable := List TableRow

/-- A page, abstracted as the list of tables BeautifulSoup finds in it. -/
abbrev Doc := List HTMLTable

/-- Mirror of the `Holding` dataclass in `scraper.py`. -/
structure Holding where
  etf_symbol : String
  trade_date : Nat
  holding_date : Nat
  rank : Nat
  isin : Option String
  issuer_name : String
  security_name : String
  security_type : String
  shares_held : ℚ
  market_value_twd : ℚ
  weight_pct : ℚ
  source_url : String
deriving Repr, DecidableEq

/-- Mirror of the `ETFConfig` dataclass in `scraper.py`. -/
structure ETFConfig where
  symbol : String
  name : String
  provider : String
  type : String
  url : String
deriving Repr, DecidableEq

/-! ### Model of Python `float` on the scraper's weight strings -/

/-- Split a character list into its longest prefix of decimal digits and the rest. -/
def takeDigits : List Char → List Char × List Char
  | [] => ([], [])
  | c :: cs =>
    if c.isDigit then
      let (d, r) := takeDigits cs
      (c :: d, r)
    else ([], c :: cs)

/-- Numeric value of a list of decimal digit characters (most significant first). -/
def digitsToNat (ds : List Char) : Nat :=
  ds.foldl (fun a c => 10 * a + (c.toNat - 48)) 0

/-- Consume an optional leading sign; return whether it was a minus, and the rest. -/
def takeSign : List Char → Bool × List Char
  | '+' :: cs => (false, cs)
  | '-' :: cs => (true, cs)
  | cs => (false, cs)

/-- Parse digits, optionally followed by a dot and more digits (at least one digit in
total), as in a Python float literal; returns the mantissa digits' value, the number
of fractional digits, and the unconsumed rest. -/
def takeMantissa (cs : List Char) : Option (Nat × Nat × List Char) :=
  let (ip, r1) := takeDigits cs
  match r1 with
  | '.' :: r2 =>
    let (fp, r3) := takeDigits r2
    if ip.isEmpty && fp.isEmpty then none
    else some (digitsToNat (ip ++ fp), fp.length, r3)
  | _ =>
    if ip.isEmpty then none
    else some (digitsToNat ip, 0, r1)

/-- Parse an optional exponent part `e`/`E` sign digits; `none` models a `ValueError`
on a malformed exponent, `some (e, rest)` the exponent value and unconsumed rest. -/
def takeExponent (cs : List Char) : Option (Int × List Char) :=
  match cs with
  | 'e' :: rest =>
    let (neg, r1) := takeSign rest
    let (ds, r2) := takeDigits r1
    if ds.isEmpty then none
    else some (if neg then -(digitsToNat ds : Int) else (digitsToNat ds : Int), r2)
  | 'E' :: rest =>
    let (neg, r1) := takeSign rest
    let (ds, r2) := takeDigits r1
    if ds.isEmpty then none
    else some (if neg then -(digitsToNat ds : Int) else (digitsToNat ds : Int), r2)
  | _ => some (0, cs)

/-- The exact rational value of a parsed decimal literal: sign, mantissa digits,
number of fractional digits, and decimal exponent. -/
def decimalValue (neg : Bool) (m fracLen : Nat) (e : Int) : ℚ :=
  let t : Int := e - (fracLen : Int)
  let mag : Nat := if 0 ≤ t then m * 10 ^ t.toNat else m
  let den : Nat := if 0 ≤ t then 1 else 10 ^ (-t).toNat
  mkRat (if neg then -(mag : Int) else (mag : Int)) den

/-- Strip leading and trailing whitespace, as Python `float` does before parsing. -/
def stripWs (cs : List Char) : List Char :=
  ((cs.dropWhile Char.isWhitespace).reverse.dropWhile Char.isWhitespace).reverse

/-- Model of Python `float(s)` on the scraper's weight strings: `none` models a
`ValueError`, `some q` a successful conversion to the exact decimal value. -/
def pyFloat (s : String) : Option ℚ :=
  let cs := stripWs s.toList
  let (neg, cs1) := takeSign cs
  match takeMantissa cs1 with
  | none => none
  | some (m, fracLen, cs2) =>
    match takeExponent cs2 with
    | none => none
    | some (e, cs3) =>
      if cs3.isEmpty then some (decimalValue neg m fracLen e)
      else none

/-- Model of `.replace('%', '').replace(',', '')`: removes every percent sign and
every comma from the string. -/
def stripPctComma (s : String) : String :=
  String.mk (s.toList.filter fun c => c ≠ '%' && c ≠ ',')

/-! ### The holdings parser (`ETFScraper.parse_holdings`) -/

/-- The text of `cols[-1]` for a candidate row (rows reaching this point have at
least 4 cells, so the default is never used). -/
def lastCell (row : TableRow) : Cell :=
  row.getLast?.getD ""

/-- Weight computation for one candidate row, mirroring
`float(cols[-1].get_text(strip=True).replace('%','').replace(',','')) if cols[-1].get_text(strip=True) else 0`:
an empty last cell yields weight `0`; otherwise the converted value, where `none`
models the `ValueError` caught by the surrounding `except`. -/
def rowWeight (row : TableRow) : Option ℚ :=
  if lastCell row = "" then some 0 else pyFloat (stripPctComma (lastCell row))

/-- The `Holding(...)` constructor call inside `parse_holdings`, at a given rank and
weight: every field other than rank, issuer, security name and weight is a constant
or the ambient date. -/
def mkHolding (today : Nat) (sym : String) (rank : Nat) (row : TableRow) (w : ℚ) : Holding :=
  { etf_symbol := sym
    trade_date := today
    holding_date := today
    rank := rank
    isin := none
    issuer_name := row.getD 0 ""
    security_name := row.getD 1 ""
    security_type := ""
    shares_held := 0
    market_value_twd := 0
    weight_pct := w
    source_url := "" }

/-- One iteration of the row loop in `parse_holdings`: rows with fewer than 4 cells
are skipped; a `ValueError` from the weight conversion (modelled by
`rowWeight row = none`) hits the `except ... continue` and drops the row; otherwise
the holding is appended with `rank = len(holdings) + 1`. -/
def processRow (today : Nat) (sym : String) (acc : List Holding) (row : TableRow) :
    List Holding :=
  if 4 ≤ row.length then
    match rowWeight row with
    | some w => acc ++ [mkHolding today sym (acc.length + 1) row w]
    | none => acc
  else acc

/-- One iteration of the table loop: `rows[1:]` skips the first (header) row, then
the row loop runs over the rest, threading the shared `holdings` accumulator. -/
def processTable (today : Nat) (sym : String) (acc : List Holding) (table : HTMLTable) :
    List Holding :=
  (table.drop 1).foldl (processRow today sym) acc

/-- `ETFScraper.parse_holdings`, on the table structure extracted from the page:
folds the table loop over all tables, starting from the empty `holdings` list. -/
def parse_holdings (today : Nat) (doc : Doc) (etf_symbol : String) : List Holding :=
  doc.foldl (processTable today etf_symbol) []

/-! ### Fetch clients (`ZyteClient.fetch`, `DirectClient.fetch`) -/

/-- Abstraction of one Zyte API response: HTTP status and the decoded
`httpResponseBody` field when present. -/
structure ZyteResponse where
  status : Nat
  httpResponseBody : Option String
deriving Repr, DecidableEq

/-- `ZyteClient.fetch`. The network is an oracle from URL to an optional response;
`none` models a transport exception (absorbed by the `except` clause). With no API
key configured the method returns `None` before any network interaction; a
non-200 status or a missing `httpResponseBody` also yield `None`. -/
def zyteClientFetch (apiKey : String) (net : String → Option ZyteResponse)
    (url : String) : Option String :=
  if apiKey = "" then none
  else
    match net url with
    | none => none
    | some resp =>
      if resp.status ≠ 200 then none
      else
        match resp.httpResponseBody with
        | some body => some body
        | none => none

/-- Abstraction of one plain HTTP response: status and body text. -/
structure HttpResp where
  status : Nat
  body : String
deriving Repr, DecidableEq

/-- `DirectClient.fetch`: a plain GET; the body is returned only on status 200,
and a transport exception (`none` from the oracle) is absorbed to `None`. -/
def directClientFetch (net : String → Option HttpResp) (url : String) :
    Option String :=
  match net url with
  | none => none
  | some r => if r.status = 200 then some r.body else none

/-! ### The scraper (`ETFScraper`) -/

/-- The `ETFScraper` state after `__init__`: the configured ETFs, the two fetch
clients constructed there (each abstracted as its `fetch` method), the ambient date,
and the BeautifulSoup table extraction as a function from page text to tables. -/
structure Scraper where
  etfs : List ETFConfig
  zyteFetch : String → Option String
  directFetch : String → Option String
  tablesOf : String → Doc
  today : Nat

/-- `ETFScraper.fetch_etf`: fetch through the Zyte client only; a truthy result
(non-`None`, non-empty) is parsed, anything else degrades to the empty list. -/
def fetch_etf (s : Scraper) (etf : ETFConfig) : List Holding :=
  match s.zyteFetch etf.url with
  | some html => if html = "" then [] else parse_holdings s.today (s.tablesOf html) etf.symbol
  | none => []

/-- `ETFScraper.fetch_all`: one `fetch_etf` task per configured ETF, gathered with
`asyncio.gather` (which waits for all of them), zipped with the symbols into the
result mapping in configuration order. -/
def fetch_all (s : Scraper) : List (String × List Holding) :=
  s.etfs.map fun e => (e.symbol, fetch_etf s e)

/-! ### Persistence (`ETFScraper.save_holdings`, `ETFScraper.run`) -/

/-- One row of the `etf_scrape_log` table (see `schema.sql` / `query.py`). -/
structure ScrapeLogRow where
  scrape_date : Nat
  etf_symbol : String
  status : String
  holdings_count : Nat
  error_message : String
deriving Repr, DecidableEq

/-- The database state visible to the pipeline: the `etf_holdings` table and the
`etf_scrape_log` table. -/
structure DB where
  etf_holdings : List Holding
  etf_scrape_log : List ScrapeLogRow
deriving Repr, DecidableEq

/-- A live connection: the committed database plus the current transaction's
uncommitted `etf_holdings` inserts and the number of commits issued so far. -/
structure Conn where
  committed : DB
  pending : List Holding
  commits : Nat
deriving Repr, DecidableEq

/-- `cursor.execute(INSERT INTO etf_holdings ...)`: buffers the row in the open
transaction. The oracle `insOk`, indexed by the statement's sequence number within
the call, tells whether the statement raises; `none` models the raised error. -/
def connExec (insOk : Nat → Bool) (c : Conn) (idx : Nat) (h : Holding) : Option Conn :=
  if insOk idx then some { c with pending := c.pending ++ [h] } else none

/-- `conn.commit()`: makes the transaction's pending inserts durable. -/
def connCommit (c : Conn) : Conn :=
  { committed := { c.committed with
      etf_holdings := c.committed.etf_holdings ++ c.pending }
    pending := []
    commits := c.commits + 1 }

/-- Closing (or abandoning) the connection: uncommitted work is discarded and only
the committed database remains. -/
def connClose (c : Conn) : DB :=
  c.committed

/-- The nested insert loop of `save_holdings`, flattened in iteration order:
`dict.items()` yields the funds in insertion order and each fund's holdings are
inserted in list order. -/
def flattenBatch (batch : List (String × List Holding)) : List Holding :=
  (batch.map Prod.snd).flatten

/-- Executes the insert statements in sequence on the open connection; stops at the
first raised error (`none`), mirroring the exception escaping the loop. -/
def execInserts (insOk : Nat → Bool) : Conn → Nat → List Holding → Option Conn
  | c, _, [] => some c
  | c, n, h :: t =>
    match connExec insOk c n h with
    | some c2 => execInserts insOk c2 (n + 1) t
    | none => none

/-- Outcome of one `save_holdings` call: whether it returned normally, the database
afterwards, and how many commits it issued. -/
structure SaveResult where
  success : Bool
  db : DB
  commits : Nat
deriving Repr, DecidableEq

/-- The freshly opened connection at the start of `save_holdings`: committed state
is the current database, no pending inserts, no commits issued. -/
def freshConn (db : DB) : Conn :=
  { committed := db, pending := [], commits := 0 }

/-- `ETFScraper.save_holdings`: opens a connection, executes one insert per holding
across all funds of the batch inside the single open transaction, then commits once
and closes. If an insert raises, the exception propagates before `conn.commit()` is
ever reached, so the transaction is never committed. -/
def save_holdings (insOk : Nat → Bool) (db : DB)
    (batch : List (String × List Holding)) : SaveResult :=
  match execInserts insOk (freshConn db) 0 (flattenBatch batch) with
  | some c => { success := true, db := connClose (connCommit c), commits := (connCommit c).commits }
  | none => { success := false, db := connClose (freshConn db), commits := (freshConn db).commits }

/-- `ETFScraper.run`: fetch all funds, then persist the batch. -/
def run (s : Scraper) (insOk : Nat → Bool) (db : DB) : SaveResult :=
  save_holdings insOk db (fetch_all s)

/-- An insert oracle under which no insert statement fails. -/
def allOk : Nat → Bool := fun _ => true

/-- Deleting the body rows that have fewer than 4 cells from a table and replacing
its first (header) row arbitrarily; used to state that neither kind of row ever
contributes to the parse result. -/
def scrubTable (f : TableRow → TableRow) (tb : HTMLTable) : HTMLTable :=
  match tb with
  | [] => []
  | hd :: rest => f hd :: rest.filter fun r => decide (4 ≤ r.length)

/-- A concrete fund configuration used to instantiate the theorems below. -/
def demoETF : ETFConfig :=
  { symbol := "XYZ", name := "Demo Fund", provider := "Prov", type := "equity", url := "u1" }

/-- A second concrete fund configuration with a distinct symbol and URL. -/
def demoETF2 : ETFConfig :=
  { symbol := "ABC", name := "Second Fund", provider := "Prov", type := "equity", url := "u2" }

/-- A concrete scraper over the two demo funds whose rendering fetches all fail. -/
def demoScraper : Scraper :=
  { etfs := [demoETF, demoETF2]
    zyteFetch := fun _ => none
    directFetch := fun _ => none
    tablesOf := fun _ => []
    today := 0 }

/-- The empty database. -/
def emptyDB : DB :=
  { etf_holdings := [], etf_scrape_log := [] }

/-! ### Helper lemmas about the parser -/

lemma processRow_short (t : Nat) (sym : String) (acc : List Holding) (row : TableRow)
    (h : row.length < 4) : processRow t sym acc row = acc := by
  unfold processRow
  rw [if_neg (Nat.not_le.mpr h)]

lemma foldl_processRow_filter (t : Nat) (sym : String) (rows : List TableRow) :
    ∀ acc : List Holding,
      (rows.filter fun r => decide (4 ≤ r.length)).foldl (processRow t sym) acc
        = rows.foldl (processRow t sym) acc := by
  induction rows with
  | nil => intro acc; rfl
  | cons r rs ih =>
    intro acc
    by_cases h4 : 4 ≤ r.length
    · simp only [List.filter_cons, h4, decide_True, List.foldl_cons]
      exact ih (processRow t sym acc r)
    · simp only [List.filter_cons, h4, decide_False, List.foldl_cons]
      rw [processRow_short t sym acc r (Nat.not_le.mp h4)]
      exact ih acc

lemma processTable_scrub (t : Nat) (sym : String) (acc : List Holding)
    (f : TableRow → TableRow) (tb : HTMLTable) :
    processTable t sym acc (scrubTable f tb) = processTable t sym acc tb := by
  cases tb with
  | nil => rfl
  | cons hd rest => exact foldl_processRow_filter t sym rest acc

lemma foldl_tables_scrub (t : Nat) (sym : String) (f : TableRow → TableRow) (doc : Doc) :
    ∀ acc : List Holding,
      (doc.map (scrubTable f)).foldl (processTable t sym) acc
        = doc.foldl (processTable t sym) acc := by
  induction doc with
  | nil => intro acc; rfl
  | cons tb rest ih =>
    intro acc
    rw [List.map_cons, List.foldl_cons, List.foldl_cons, processTable_scrub]
    exact ih _

lemma ranks_processRow (t : Nat) (sym : String) (acc : List Holding) (row : TableRow)
    (h : acc.map Holding.rank = List.range' 1 acc.length) :
    (processRow t sym acc row).map Holding.rank
      = List.range' 1 (processRow t sym acc row).length := by
  unfold processRow
  split
  · split
    · simp [List.map_append, h, mkHolding, List.range'_1_concat, Nat.add_comm]
    · exact h
  · exact h

lemma ranks_foldl_rows (t : Nat) (sym : String) (rows : List TableRow) :
    ∀ acc : List Holding, acc.map Holding.rank = List.range' 1 acc.length →
      (rows.foldl (processRow t sym) acc).map Holding.rank
        = List.range' 1 (rows.foldl (processRow t sym) acc).length := by
  induction rows with
  | nil => intro acc h; exact h
  | cons r rs ih => intro acc h; exact ih _ (ranks_processRow t sym acc r h)

lemma ranks_foldl_tables (t : Nat) (sym : String) (tables : List HTMLTable) :
    ∀ acc : List Holding, acc.map Holding.rank = List.range' 1 acc.length →
      (tables.foldl (processTable t sym) acc).map Holding.rank
        = List.range' 1 (tables.foldl (processTable t sym) acc).length := by
  induction tables with
  | nil => intro acc h; exact h
  | cons tb tbs ih => intro acc h; exact ih _ (ranks_foldl_rows t sym (tb.drop 1) acc h)

lemma mem_processRow {P : Holding → Prop} (t : Nat) (sym : String) (acc : List Holding)
    (row : TableRow) (hacc : ∀ h ∈ acc, P h)
    (hnew : ∀ n w, rowWeight row = some w → 4 ≤ row.length → P (mkHolding t sym n row w)) :
    ∀ h ∈ processRow t sym acc row, P h := by
  intro h hm
  unfold processRow at hm
  split at hm
  next h4 =>
    cases hw : rowWeight row with
    | some w =>
      rw [hw] at hm
      rcases List.mem_append.mp hm with hl | hr
      · exact hacc h hl
      · rw [List.mem_singleton.mp hr]
        exact hnew _ w hw h4
    | none =>
      rw [hw] at hm
      exact hacc h hm
  next => exact hacc h hm

lemma mem_foldl_rows {P : Holding → Prop} (t : Nat) (sym : String) (rows : List TableRow) :
    ∀ acc : List Holding, (∀ h ∈ acc, P h) →
      (∀ row ∈ rows, ∀ n w, rowWeight row = some w → 4 ≤ row.length →
        P (mkHolding t sym n row w)) →
      ∀ h ∈ rows.foldl (processRow t sym) acc, P h := by
  induction rows with
  | nil => intro acc hacc _ h hm; exact hacc h hm
  | cons r rs ih =>
    intro acc hacc hnew h hm
    exact ih (processRow t sym acc r)
      (mem_processRow t sym acc r hacc
        (fun n w hw h4 => hnew r (List.mem_cons_self r rs) n w hw h4))
      (fun row hrow n w hw h4 => hnew row (List.mem_cons_of_mem r hrow) n w hw h4) h hm

lemma mem_foldl_tables {P : Holding → Prop} (t : Nat) (sym : String)
    (tables : List HTMLTable) :
    ∀ acc : List Holding, (∀ h ∈ acc, P h) →
      (∀ tb ∈ tables, ∀ row ∈ tb.drop 1, ∀ n w, rowWeight row = some w →
        4 ≤ row.length → P (mkHolding t sym n row w)) →
      ∀ h ∈ tables.foldl (processTable t sym) acc, P h := by
  induction tables with
  | nil => intro acc hacc _ h hm; exact hacc h hm
  | cons tb tbs ih =>
    intro acc hacc hnew h hm
    exact ih (processTable t sym acc tb)
      (mem_foldl_rows t sym (tb.drop 1) acc hacc
        (fun row hrow n w hw h4 => hnew tb (List.mem_cons_self tb tbs) row hrow n w hw h4))
      (fun tb2 htb row hrow n w hw h4 =>
        hnew tb2 (List.mem_cons_of_mem tb htb) row hrow n w hw h4) h hm

lemma mem_parse {P : Holding → Prop} (t : Nat) (sym : String) (doc : Doc)
    (hnew : ∀ tb ∈ doc, ∀ row ∈ tb.drop 1, ∀ n w, rowWeight row = some w →
      4 ≤ row.length → P (mkHolding t sym n row w)) :
    ∀ h ∈ parse_holdings t doc sym, P h :=
  mem_foldl_tables t sym doc [] (fun h hm => absurd hm (List.not_mem_nil h)) hnew

lemma parse_symbol (t : Nat) (doc : Doc) (sym : String) :
    ∀ h ∈ parse_holdings t doc sym, h.etf_symbol = sym :=
  mem_parse t sym doc (fun _ _ _ _ _ _ _ _ => by simp [mkHolding])

/-! ### Helper lemmas about fetching and persistence -/

lemma fetch_etf_symbol (s : Scraper) (e : ETFConfig) :
    ∀ h ∈ fetch_etf s e, h.etf_symbol = e.symbol := by
  intro h hm
  unfold fetch_etf at hm
  split at hm
  next html heq =>
    split at hm
    · exact absurd hm (List.not_mem_nil h)
    · exact parse_symbol _ _ _ h hm
  next => exact absurd hm (List.not_mem_nil h)

lemma mem_flattenBatch_fetch_all (s : Scraper) (h : Holding)
    (hm : h ∈ flattenBatch (fetch_all s)) : ∃ e ∈ s.etfs, h ∈ fetch_etf s e := by
  unfold flattenBatch fetch_all at hm
  rw [List.mem_flatten] at hm
  obtain ⟨l, hl, hml⟩ := hm
  rw [List.mem_map] at hl
  obtain ⟨p, hp, rfl⟩ := hl
  rw [List.mem_map] at hp
  obtain ⟨e, he, rfl⟩ := hp
  exact ⟨e, he, hml⟩

lemma execInserts_some (insOk : Nat → Bool) : ∀ (rows : List Holding) (c : Conn)
    (n : Nat) (c2 : Conn), execInserts insOk c n rows = some c2 →
    c2.committed = c.committed ∧ c2.commits = c.commits ∧
      c2.pending = c.pending ++ rows := by
  intro rows
  induction rows with
  | nil =>
    intro c n c2 h
    unfold execInserts at h
    cases h
    simp
  | cons r rs ih =>
    intro c n c2 h
    unfold execInserts at h
    cases hok : insOk n with
    | true =>
      have hc : connExec insOk c n r = some { c with pending := c.pending ++ [r] } := by
        unfold connExec
        rw [if_pos hok]
      rw [hc] at h
      obtain ⟨h1, h2, h3⟩ := ih _ _ _ h
      refine ⟨h1, h2, ?_⟩
      rw [h3]
      simp
    | false =>
      have hc : connExec insOk c n r = none := by
        unfold connExec
        rw [if_neg (by simp [hok])]
      rw [hc] at h
      cases h

lemma execInserts_allOk : ∀ (rows : List Holding) (c : Conn) (n : Nat),
    execInserts allOk c n rows = some { c with pending := c.pending ++ rows } := by
  intro rows
  induction rows with
  | nil => intro c n; simp [execInserts]
  | cons r rs ih =>
    intro c n
    have hc : connExec allOk c n r = some { c with pending := c.pending ++ [r] } := by
      unfold connExec allOk
      simp
    unfold execInserts
    rw [hc]
    show execInserts allOk { c with pending := c.pending ++ [r] } (n + 1) rs = _
    rw [ih]
    simp

lemma save_holdings_allOk (db : DB) (batch : List (String × List Holding)) :
    save_holdings allOk db batch
      = { success := true
          db := { db with etf_holdings := db.etf_holdings ++ flattenBatch batch }
          commits := 1 } := by
  unfold save_holdings
  rw [execInserts_allOk]
  simp [connCommit, connClose, freshConn]

lemma save_holdings_cases (insOk : Nat → Bool) (db : DB)
    (batch : List (String × List Holding)) :
    (save_holdings insOk db batch
        = { success := true
            db := { db with etf_holdings := db.etf_holdings ++ flattenBatch batch }
            commits := 1 })
    ∨ (save_holdings insOk db batch = { success := false, db := db, commits := 0 }) := by
  unfold save_holdings
  cases hexec : execInserts insOk (freshConn db) 0 (flattenBatch batch) with
  | some c =>
    left
    obtain ⟨h1, h2, h3⟩ := execInserts_some insOk _ _ _ _ hexec
    simp [connCommit, connClose, freshConn, h1, h2, h3]
  | none =>
    right
    simp [connClose, freshConn]

/-! ### The claims -/

/-- C1: the claim states that every executed run records exactly one scrape-log row
per configured fund, success or failure. In fact the pipeline body (`run`, i.e.
`fetch_all` followed by `save_holdings`) never writes to `etf_scrape_log` at all:
over every scraper, insert oracle and starting database, the scrape-log table after
the run equals the one before it, so zero rows — not one per fund — are recorded. -/
theorem c1_run_never_writes_scrape_log (s : Scraper) (insOk : Nat → Bool) (db : DB) :
    (run s insOk db).db.etf_scrape_log = db.etf_scrape_log := by
  unfold run
  rcases save_holdings_cases insOk db (fetch_all s) with h | h <;> rw [h]

/-- C2 counterexample: the 4-cell candidate row `["A", "B", "100", "abc"]` has a
non-empty last cell whose numeric conversion fails; the claim says the row is still
returned with weight 0, but parsing a table that contains it (under a header row)
returns no holdings at all — the row is dropped. -/
theorem c2_counterexample :
    parse_holdings 0 [[["h1", "h2", "h3", "h4"], ["A", "B", "100", "abc"]]] "XYZ" = [] := by
  decide

/-- C2 amended: for a candidate row (at least 4 cells), an empty last cell yields
the row with `weight_pct = 0`, but a non-empty last cell whose conversion (after
removing percent signs and commas) fails raises `ValueError`, which the
`except ... continue` turns into dropping the row — it is not kept with weight 0. -/
theorem c2_amended_empty_zero_failed_dropped (today : Nat) (sym : String)
    (acc : List Holding) (row : TableRow) (h4 : 4 ≤ row.length) :
    (lastCell row = "" →
      processRow today sym acc row = acc ++ [mkHolding today sym (acc.length + 1) row 0])
    ∧ (lastCell row ≠ "" → pyFloat (stripPctComma (lastCell row)) = none →
      processRow today sym acc row = acc) := by
  constructor
  · intro hempty
    unfold processRow rowWeight
    rw [if_pos h4, if_pos hempty]
  · intro hne hfail
    unfold processRow rowWeight
    rw [if_pos h4, if_neg hne, hfail]

/-- C2 witness: both amended branches at concrete rows — the empty-weight row is
kept with weight 0, the unconvertible-weight row is dropped. -/
theorem c2_amended_witness :
    processRow 0 "XYZ" [] ["A", "B", "100", ""] = [mkHolding 0 "XYZ" 1 ["A", "B", "100", ""] 0]
    ∧ processRow 0 "XYZ" [] ["A", "B", "100", "abc"] = [] := by
  constructor
  · have h := (c2_amended_empty_zero_failed_dropped 0 "XYZ" [] ["A", "B", "100", ""]
      (by decide)).1 (by decide)
    simpa using h
  · exact (c2_amended_empty_zero_failed_dropped 0 "XYZ" [] ["A", "B", "100", "abc"]
      (by decide)).2 (by decide) (by decide)

/-- C3 counterexample: on the claim's two-row table the parser returns one holding,
not two — `rows[1:]` consumes the first listed row ("Co A") as the table header. -/
theorem c3_counterexample :
    (parse_holdings 0 [[["Co A", "Sec A", "100", "1.23%"], ["Co B", "Sec B", "50", "0.50%"]]]
        "XYZ").length = 1
    ∧ (parse_holdings 0 [[["Co A", "Sec A", "100", "1.23%"], ["Co B", "Sec B", "50", "0.50%"]]]
        "XYZ").length ≠ 2 := by
  decide

/-- C3 amended: parsing that page for fund "XYZ" yields exactly one holding — rank 1,
issuer "Co B", security "Sec B", weight 0.50 (`mkRat 1 2`); the first row "Co A" is
skipped as the table header and never becomes a holding. -/
theorem c3_amended_single_holding :
    parse_holdings 0 [[["Co A", "Sec A", "100", "1.23%"], ["Co B", "Sec B", "50", "0.50%"]]] "XYZ"
      = [mkHolding 0 "XYZ" 1 ["Co B", "Sec B", "50", "0.50%"] (mkRat 1 2)]
    ∧ mkRat 1 2 = (0.50 : ℚ) := by
  constructor
  · decide
  · norm_num

/-- C4: the batch handed to persistence is a full join — one entry per configured
fund, in configuration order, failed funds included. Failures are isolated: a fund
whose fetch yields no content contributes the empty holding list and no holdings
rows to the run (given pairwise-distinct symbols), and replacing that fund's fetch
outcome (any oracle agreeing elsewhere) leaves every other fund's result unchanged. -/
theorem c4_full_join_failure_isolation (s : Scraper) (e : ETFConfig)
    (z2 : String → Option String) (insOk : Nat → Bool) (db : DB)
    (hmem : e ∈ s.etfs)
    (hfail : s.zyteFetch e.url = none)
    (hagree : ∀ u, u ≠ e.url → z2 u = s.zyteFetch u)
    (hnodup : (s.etfs.map ETFConfig.symbol).Nodup) :
    (fetch_all s).map Prod.fst = s.etfs.map ETFConfig.symbol
    ∧ fetch_etf s e = []
    ∧ (run s insOk db).db.etf_holdings.filter (fun h => h.etf_symbol == e.symbol)
        = db.etf_holdings.filter (fun h => h.etf_symbol == e.symbol)
    ∧ ∀ e2 ∈ s.etfs, e2.url ≠ e.url →
        fetch_etf { s with zyteFetch := z2 } e2 = fetch_etf s e2 := by
  have hempty : fetch_etf s e = [] := by
    unfold fetch_etf
    rw [hfail]
  refine ⟨?_, hempty, ?_, ?_⟩
  · unfold fetch_all
    rw [List.map_map]
    rfl
  · have hnone : ∀ h ∈ flattenBatch (fetch_all s), (h.etf_symbol == e.symbol) = false := by
      intro h hm
      obtain ⟨e2, he2, hh⟩ := mem_flattenBatch_fetch_all s h hm
      have hsym := fetch_etf_symbol s e2 h hh
      rw [beq_eq_false_iff_ne]
      intro heq
      have he2e : e2 = e :=
        List.inj_on_of_nodup_map hnodup he2 hmem (by rw [← hsym]; exact heq)
      rw [he2e, hempty] at hh
      exact absurd hh (List.not_mem_nil h)
    have hfilter : (flattenBatch (fetch_all s)).filter
        (fun h => h.etf_symbol == e.symbol) = [] :=
      List.filter_eq_nil_iff.mpr (fun a ha => by simp [hnone a ha])
    unfold run
    rcases save_holdings_cases insOk db (fetch_all s) with hs | hs
    · rw [hs]
      show (db.etf_holdings ++ flattenBatch (fetch_all s)).filter
          (fun h => h.etf_symbol == e.symbol) = _
      rw [List.filter_append, hfilter, List.append_nil]
    · rw [hs]
  · intro e2 _ hne
    show (match z2 e2.url with
        | some html => if html = "" then [] else parse_holdings s.today (s.tablesOf html) e2.symbol
        | none => []) = fetch_etf s e2
    rw [hagree e2.url hne]
    rfl

/-- C4 witness: a two-fund scraper where every fetch fails — the batch still lists
both funds in order, the failing fund maps to the empty list, its symbol gains no
holdings rows through a run, and the other fund's result is independent of the
failing fund's fetch oracle. -/
theorem c4_witness :
    (fetch_all demoScraper).map Prod.fst = demoScraper.etfs.map ETFConfig.symbol
    ∧ fetch_etf demoScraper demoETF = []
    ∧ (run demoScraper allOk emptyDB).db.etf_holdings.filter
        (fun h => h.etf_symbol == demoETF.symbol)
      = emptyDB.etf_holdings.filter (fun h => h.etf_symbol == demoETF.symbol)
    ∧ fetch_etf { demoScraper with zyteFetch := fun _ => none } demoETF2
        = fetch_etf demoScraper demoETF2 := by
  have hc := c4_full_join_failure_isolation demoScraper demoETF (fun _ => none) allOk emptyDB
    (by decide) rfl (fun u _ => rfl) (by decide)
  exact ⟨hc.1, hc.2.1, hc.2.2.1, hc.2.2.2 demoETF2 (by decide) (by decide)⟩

/-- C5: in every parse result the rank values are exactly `1, 2, 3, ...` in list
order — strictly increasing from 1 with no gaps or repeats, assigned sequentially
across all tables of the document (the accumulator is threaded through the table
loop and never reset). -/
theorem c5_ranks_sequential (today : Nat) (doc : Doc) (sym : String) :
    (parse_holdings today doc sym).map Holding.rank
      = List.range' 1 (parse_holdings today doc sym).length :=
  ranks_foldl_tables today sym doc [] rfl

/-- C6: neither the first (header) row of any table nor any body row with fewer
than 4 cells ever contributes to the parse result: scrubbing every table —
replacing its first row arbitrarily and deleting its short body rows — leaves the
output unchanged, for every document. -/
theorem c6_header_and_short_rows_never_produce (today : Nat) (sym : String)
    (doc : Doc) (f : TableRow → TableRow) :
    parse_holdings today (doc.map (scrubTable f)) sym = parse_holdings today doc sym :=
  foldl_tables_scrub today sym f doc []

/-- C7: `save_holdings` is atomic with a single commit at the end: when it returns
normally the holdings table has been extended by exactly the batch's rows across all
funds and exactly one commit was issued; when an insert fails partway no commit was
issued and the stored holdings table is unchanged. -/
theorem c7_save_atomic_single_commit (insOk : Nat → Bool) (db : DB)
    (batch : List (String × List Holding)) :
    (save_holdings insOk db batch).db.etf_holdings
      = (if (save_holdings insOk db batch).success
         then db.etf_holdings ++ flattenBatch batch else db.etf_holdings)
    ∧ (save_holdings insOk db batch).commits
      = (if (save_holdings insOk db batch).success then 1 else 0) := by
  rcases save_holdings_cases insOk db batch with h | h <;> rw [h] <;> simp

/-- C8: persisting the same batch twice (all inserts succeeding) appends a second
copy of every row instead of replacing the first: the final holdings table is the
original followed by two copies of the flattened batch, and every row's multiplicity
grows by twice its multiplicity in the batch — persistence is not idempotent across
reruns of the same date. -/
theorem c8_rerun_appends_duplicates (db : DB) (batch : List (String × List Holding)) :
    (save_holdings allOk (save_holdings allOk db batch).db batch).db.etf_holdings
      = db.etf_holdings ++ flattenBatch batch ++ flattenBatch batch
    ∧ ∀ h : Holding,
      ((save_holdings allOk (save_holdings allOk db batch).db batch).db.etf_holdings.count h
        = db.etf_holdings.count h + 2 * (flattenBatch batch).count h) := by
  constructor
  · simp [save_holdings_allOk, List.append_assoc]
  · intro h
    simp [save_holdings_allOk, List.count_append]
    omega

/-- C9: every holding the parser returns carries `isin = None`, empty security type,
zero shares held, zero market value, empty source URL, and trade date equal to
holding date equal to the date of the parse call — only issuer name, security name,
rank and weight carry information parsed from the page. -/
theorem c9_constant_fields (today : Nat) (doc : Doc) (sym : String) :
    (parse_holdings today doc sym).all
      (fun h => decide (h.isin = none ∧ h.security_type = "" ∧ h.shares_held = 0
        ∧ h.market_value_twd = 0 ∧ h.source_url = "" ∧ h.trade_date = today
        ∧ h.holding_date = today ∧ h.trade_date = h.holding_date)) = true := by
  rw [List.all_eq_true]
  intro h hm
  refine mem_parse (P := fun x => decide (x.isin = none ∧ x.security_type = ""
    ∧ x.shares_held = 0 ∧ x.market_value_twd = 0 ∧ x.source_url = ""
    ∧ x.trade_date = today ∧ x.holding_date = today
    ∧ x.trade_date = x.holding_date) = true) today sym doc ?_ h hm
  intro tb _ row _ n w _ _
  simp [mkHolding]

/-- C10: the per-fund fetch consults only the rendering-service client — its result
is invariant under any replacement of the direct HTTP client, which `__init__`
constructs but the pipeline never invokes; a failed rendering fetch degrades the
fund to the empty holding list with no direct-HTTP fallback; and with no API key
configured the rendering client fails for every network behaviour, i.e. without a
network call. -/
theorem c10_zyte_only_direct_unused (s : Scraper) (e : ETFConfig)
    (d2 : String → Option String) :
    fetch_etf { s with directFetch := d2 } e = fetch_etf s e
    ∧ (s.zyteFetch e.url = none → fetch_etf s e = [])
    ∧ ∀ (net : String → Option ZyteResponse) (url : String),
        zyteClientFetch "" net url = none := by
  refine ⟨rfl, ?_, ?_⟩
  · intro hz
    unfold fetch_etf
    rw [hz]
  · intro net url
    rfl

/-- C10 witness: with the demo scraper (failing rendering fetches), replacing the
direct client changes nothing, the fund's result is empty, and the keyless rendering
client returns failure even when the network would answer. -/
theorem c10_witness :
    fetch_etf { demoScraper with directFetch := fun _ => some "page" } demoETF
      = fetch_etf demoScraper demoETF
    ∧ fetch_etf demoScraper demoETF = []
    ∧ zyteClientFetch ""
        (fun _ => some { status := 200, httpResponseBody := some "body" }) "u1" = none := by
  have hc := c10_zyte_only_direct_unused demoScraper demoETF (fun _ => some "page")
  exact ⟨hc.1, hc.2.1 rfl, hc.2.2 _ "u1"⟩

end TaiwanETF
